import Mathlib

/-!
Verification of the chall-manager scenario engine adapter (`pkg/iac`), the
process-wide configuration (`global`), and the scenario ZIP extraction of the
secret-manager service (`api/v1/challenge/secrets.go`), against the repository
specification.

The Go source is shallowly embedded: pure computations become Lean functions,
engine calls (Pulumi automation API, OCI loader, filesystem, YAML parsing,
crypto/rand) become explicit oracles carried by an environment record, and
stateful code is written as explicit state passing.  Machine integers that
matter (`PulumiTimeout`, an `int`) are embedded as `Int`.
-/

namespace ChallManager

/-! ## Error model

The repository's `pkg/errors` package is not part of the sources at hand; only
its use sites (`errs.ErrInternal{Sub: err}`, `errs.ErrScenario{Sub: err}`) are.
`GoErr` embeds the Go `error` values the adapter produces, keeping the wrapping
structure of `fmt.Errorf("...: %w", err)` explicit.
-/

/-- The gRPC status codes of the spec's error taxonomy (§7). -/
inductive ErrCode where
  | internal
  | invalidArgument
  | deadlineExceeded
  | notFound
  | alreadyExists
  | cancelled
  | failedPrecondition
  | unauthenticated
  | unavailable
  deriving DecidableEq, Repr

/-- Go `error` values as produced by the adapter code.

`engine` is an opaque error coming back from a Pulumi automation call,
`wrapped msg e` is `fmt.Errorf(msg ++ ": %w", e)` (the formatting of the
wrapped value into the message is abstracted into `msg`), `errInternal` and
`errScenario` are the two `pkg/errors` wrappers used by `pkg/iac`, and
`goMsg` is a plain error value built from a message. -/
inductive GoErr where
  | engine (msg : String)
  | wrapped (msg : String) (sub : GoErr)
  | errInternal (sub : GoErr)
  | errScenario (sub : GoErr)
  | goMsg (msg : String)
  deriving DecidableEq, Repr

/-- Modelled from the spec: the `pkg/errors` package (which carries the
gRPC-code mapping of the adapter's error wrappers) is not under the sources at
hand.  §7 of the spec maps scenario failures (`ErrScenario`, "engine error
attributable to user program") to `InvalidArgument` and internal/store
failures (`ErrInternal`) to `Internal`.  Errors that are not one of the two
wrappers have no code at this layer. -/
def GoErr.grpcCode : GoErr → Option ErrCode
  | .errInternal _ => some .internal
  | .errScenario _ => some .invalidArgument
  | _ => none

/-! ## Process-wide configuration (`global` package) -/

/-- `Configuration.Otel` of the `global` package. -/
structure OtelConf where
  Tracing : Bool
  ServiceName : String
  deriving DecidableEq, Repr

/-- `Configuration.Etcd` of the `global` package. -/
structure EtcdConf where
  Endpoint : String
  Username : String
  Password : String
  deriving DecidableEq, Repr

/-- `Configuration.OCI` of the `global` package. -/
structure OCIConf where
  Insecure : Bool
  Username : String
  Password : String
  deriving DecidableEq, Repr

/-- The `global.Configuration` holder.  Its own documentation says of
`PulumiTimeout`: "maximum time (in seconds) to wait for Pulumi operations
(Up, Destroy, etc.) before timing out.  Default is 120 seconds (2 minutes)
... Set to 0 to disable timeout (not recommended for production)." -/
structure Configuration where
  Directory : String
  Cache : String
  LogLevel : String
  PulumiTimeout : Int
  Otel : OtelConf
  Etcd : EtcdConf
  OCI : OCIConf
  deriving DecidableEq, Repr

/-! ## Values of the Pulumi automation SDK, as used by `pkg/iac` -/

/-- A stack output value (`auto.OutputValue.Value`, a Go `any`): a string, a
`[]any` list, or any other dynamic value (abstracted with a tag). -/
inductive OutVal where
  | str (s : String)
  | list (l : List OutVal)
  | other (tag : String)

/-- Whether an output value is a Go string (i.e. the `v.(string)` type
assertion succeeds). -/
def OutVal.isStr : OutVal → Bool
  | .str _ => true
  | _ => false

/-- The part of `auto.UpResult` read by `Export`: its `Outputs` map, which may
be `nil` (`none`). -/
structure UpResultData where
  Outputs : Option (List (String × OutVal))

/-- `iac.Result` wraps the engine's `auto.UpResult`. -/
structure Result where
  sub : UpResultData

/-- The part of `auto.Stack` observable through `pkg/iac`: the fully qualified
stack name chosen at `UpsertStack` time and the configuration set through
`SetAllConfig`/`SetConfig`, as a key-value map. -/
structure AutoStack where
  name : String
  config : List (String × String)
  deriving DecidableEq, Repr

/-- `iac.Stack` wraps the Pulumi auto stack. -/
structure Stack where
  pas : AutoStack
  deriving DecidableEq, Repr

/-- The part of `workspace.Project` read from the scenario's Pulumi YAML:
its `name` field (`yml.Name.String()`). -/
structure Project where
  name : String
  deriving DecidableEq, Repr

/-- `fs.Challenge` — Modelled from the spec: the `pkg/fs` package is not under
the sources at hand, only its use sites.  §3 of the spec lists the challenge
record's fields; `pkg/iac` reads `ID`, `Scenario`, `Additional` and
`ImagePullSecrets`. -/
structure Challenge where
  ID : String
  Scenario : String
  Hash : String
  Until : Option Int
  Timeout : Option Int
  Min : Option Int
  Max : Option Int
  Additional : List (String × String)
  ImagePullSecrets : List String
  deriving DecidableEq, Repr

/-- `fs.Instance` — Modelled from the spec: the `pkg/fs` package is not under
the sources at hand, only its use sites.  §3 of the spec lists the instance
record's fields; `Export` assigns `State`, `ConnectionInfo` and `Flags`. -/
structure Instance where
  Identity : String
  ChallengeID : String
  SourceID : String
  Since : Int
  LastRenew : Int
  Until : Option Int
  ConnectionInfo : String
  Flags : List String
  State : String
  Additional : List (String × String)
  deriving DecidableEq, Repr

/-- The observable behaviour of one engine call executed under a context with
a deadline: the call's outcome, and whether the deadline had expired when it
returned (`timeoutCtx.Err() == context.DeadlineExceeded`). -/
structure EngineRun (α : Type) where
  result : Except GoErr α
  deadlineExpired : Bool

/-- The environment of external collaborators of `pkg/iac`: the OCI manager,
the filesystem, the YAML parser, the Pulumi automation workspace calls, and
`crypto/rand`.  Each fallible call is an oracle; `none` for an error field
means the call succeeds. -/
structure PulumiEnv where
  /-- `global.GetOCIManager().Load(ctx, scenario)`: scenario reference to
  working directory. -/
  ociLoad : String → Except GoErr String
  /-- contents of `dir/Pulumi.yaml`, when that file exists. -/
  readPulumiYaml : String → Option String
  /-- contents of `dir/Pulumi.yml`, when that file exists. -/
  readPulumiYml : String → Option String
  /-- `yaml.Unmarshal` of the project descriptor into `workspace.Project`. -/
  yamlProject : String → Except GoErr Project
  /-- failure of `auto.NewLocalWorkspace`, if any. -/
  newWorkspaceErr : Option GoErr
  /-- failure of `auto.UpsertStack`, if any. -/
  upsertErr : Option GoErr
  /-- failure of `stack.pas.SetAllConfig`, if any. -/
  setAllConfigErr : Option GoErr
  /-- failure of `stack.pas.SetConfig`, if any. -/
  setConfigErr : Option GoErr
  /-- outcome of the raw `stack.pas.Preview` call made by `Validate`. -/
  rawPreview : Except GoErr Unit
  /-- outcome of `stack.pas.Export`: the serialized deployment bytes. -/
  exportResult : Except GoErr String
  /-- the 8 bytes `crypto/rand.Read` fills for `randName`. -/
  randBytes : List Nat

/-! ## Go map and JSON helpers -/

/-- Go map assignment `m[k] = v` on an association-list representation:
replace the first binding of `k`, or append a new one. -/
def mapSet : List (String × String) → String → String → List (String × String)
  | [], k, v => [(k, v)]
  | (k', v') :: rest, k, v =>
    if k' = k then (k, v) :: rest else (k', v') :: mapSet rest k v

/-- `stack.pas.SetAllConfig`: set every entry of the given config map on the
stack's configuration. -/
def setAllConfigMap (base : List (String × String)) (entries : List (String × String)) :
    List (String × String) :=
  entries.foldl (fun m kv => mapSet m kv.1 kv.2) base

/-- One hexadecimal digit, lowercase. -/
def hexDigit (n : Nat) : Char :=
  if n < 10 then Char.ofNat ('0'.toNat + n) else Char.ofNat ('a'.toNat + (n - 10))

/-- Go `encoding/json` escaping of one character inside a string literal
(with the default `SetEscapeHTML(true)` behaviour of `json.Marshal`). -/
def jsonEscapeChar (c : Char) : List Char :=
  if c = '"' then ['\\', '"']
  else if c = '\\' then ['\\', '\\']
  else if c = '<' then ['\\', 'u', '0', '0', '3', 'c']
  else if c = '>' then ['\\', 'u', '0', '0', '3', 'e']
  else if c = '&' then ['\\', 'u', '0', '0', '2', '6']
  else if c = '\n' then ['\\', 'n']
  else if c = '\r' then ['\\', 'r']
  else if c = '\t' then ['\\', 't']
  else if c.toNat < 0x20 then
    ['\\', 'u', '0', '0', hexDigit (c.toNat / 16), hexDigit (c.toNat % 16)]
  else if c = ' ' then ['\\', 'u', '2', '0', '2', '8']
  else if c = ' ' then ['\\', 'u', '2', '0', '2', '9']
  else [c]

/-- A JSON string literal for a Go string. -/
def jsonQuote (s : String) : String :=
  "\"" ++ String.mk ((s.data.map jsonEscapeChar).flatten) ++ "\""

/-- `json.Marshal` of a non-nil Go `[]string`. -/
def jsonEncodeStringList (l : List String) : String :=
  "[" ++ String.intercalate "," (l.map jsonQuote) ++ "]"

/-- Insertion step for sorting map keys the way `json.Marshal` does. -/
def insertByKey (p : String × String) : List (String × String) → List (String × String)
  | [] => [p]
  | q :: rest => if p.1 < q.1 then p :: q :: rest else q :: insertByKey p rest

/-- Sort map entries by key (Go `json.Marshal` emits map keys in sorted
order). -/
def sortByKey (l : List (String × String)) : List (String × String) :=
  l.foldr insertByKey []

/-- `json.Marshal` of a non-nil Go `map[string]string`: entries in key order,
each `"k":"v"`. -/
def jsonEncodeStringMap (m : List (String × String)) : String :=
  "\x7b" ++
    String.intercalate "," ((sortByKey m).map (fun kv => jsonQuote kv.1 ++ ":" ++ jsonQuote kv.2))
    ++ "\x7d"

/-! ## `pkg/iac/stack.go` -/

/-- The per-operation timeout computed identically at the top of `Up`,
`Preview` and `Down` (in seconds):
`timeout := time.Duration(global.Conf.PulumiTimeout) * time.Second;
if timeout == 0 { timeout = 2 * time.Minute }`. -/
def operationTimeout (conf : Configuration) : Int :=
  let timeout := conf.PulumiTimeout
  if timeout = 0 then 120 else timeout

/-- `(*Stack).Up`: run the engine's `Up` under a context whose deadline is
`operationTimeout conf` seconds away.  `run` is the engine oracle, applied to
the timeout (in seconds) of the context it is given.  On an error with the
deadline expired, the error is wrapped as
`ErrInternal{fmt.Errorf("pulumi operation timed out after %v: %w", timeout, err)}`;
any other error is returned unchanged. -/
def Stack.Up (conf : Configuration) (run : Int → EngineRun UpResultData) :
    Except GoErr Result :=
  let timeout := operationTimeout conf
  let r := run timeout
  match r.result with
  | .ok res => .ok { sub := res }
  | .error err =>
    if r.deadlineExpired then
      .error (.errInternal (.wrapped ("pulumi operation timed out after " ++ toString timeout) err))
    else
      .error err

/-- `(*Stack).Preview`: same deadline wrapping as `Up`; on an error with the
deadline expired it returns
`ErrInternal{fmt.Errorf("pulumi preview timed out after %v: %w", timeout, err)}`,
otherwise it returns the engine's error (or success) unchanged. -/
def Stack.Preview (conf : Configuration) (run : Int → EngineRun Unit) :
    Except GoErr Unit :=
  let timeout := operationTimeout conf
  let r := run timeout
  match r.result with
  | .ok _ => .ok ()
  | .error err =>
    if r.deadlineExpired then
      .error (.errInternal (.wrapped ("pulumi preview timed out after " ++ toString timeout) err))
    else
      .error err

/-- `(*Stack).Down`: same deadline wrapping as `Up`, over the engine's
`Destroy`. -/
def Stack.Down (conf : Configuration) (run : Int → EngineRun Unit) :
    Except GoErr Unit :=
  let timeout := operationTimeout conf
  let r := run timeout
  match r.result with
  | .ok _ => .ok ()
  | .error err =>
    if r.deadlineExpired then
      .error (.errInternal (.wrapped ("pulumi destroy timed out after " ++ toString timeout) err))
    else
      .error err

/-- `auto.FullyQualifiedStackName` of the Pulumi SDK:
`fmt.Sprintf("%s/%s/%s", org, project, stack)`. -/
def FullyQualifiedStackName (org proj stack : String) : String :=
  org ++ "/" ++ proj ++ "/" ++ stack

/-- `loadPulumiYml`: read `dir/Pulumi.yaml`, else `dir/Pulumi.yml`, else fail
with the file-read error. -/
def loadPulumiYml (env : PulumiEnv) (dir : String) : Except GoErr String :=
  match env.readPulumiYaml dir with
  | some b => .ok b
  | none =>
    match env.readPulumiYml dir with
    | some b => .ok b
    | none => .error (.goMsg "no such file or directory")

/-- `LoadStack`: load the scenario working directory through the OCI manager,
read and parse the project descriptor, create a local workspace, and upsert
the stack named `(organization, projectName, identity)`.  The cache-directory
preparation and workspace environment variables of the source act only on the
process environment and are not observable here. -/
def LoadStack (env : PulumiEnv) (scenario id : String) : Except GoErr Stack :=
  match env.ociLoad scenario with
  | .error e => .error e
  | .ok dir =>
    match loadPulumiYml env dir with
    | .error e => .error (.errScenario (.wrapped "no Pulumi.yaml/Pulumi.yml file" e))
    | .ok b =>
      match env.yamlProject b with
      | .error e => .error (.errScenario (.wrapped "invalid Pulumi YAML content" e))
      | .ok yml =>
        match env.newWorkspaceErr with
        | some e => .error (.errInternal (.wrapped "new local workspace" e))
        | none =>
          let stackName := FullyQualifiedStackName "organization" yml.name id
          match env.upsertErr with
          | some e => .error (.errInternal (.wrapped ("upsert stack " ++ stackName) e))
          | none => .ok { pas := { name := stackName, config := [] } }

/-- `NewStack`: `LoadStack` (errors wrapped in `ErrInternal`), then
`SetAllConfig` with `identity`, `challenge_id`, and — only when the list is
non-empty — `image_pull_secrets` as a JSON-encoded string list.
(`json.Marshal` of a `[]string` cannot fail; the dead error branch of the
source is not represented.) -/
def NewStack (env : PulumiEnv) (fschall : Challenge) (id : String) : Except GoErr Stack :=
  match LoadStack env fschall.Scenario id with
  | .error e => .error (.errInternal e)
  | .ok stack =>
    let config := [("identity", id), ("challenge_id", fschall.ID)]
    let config :=
      if fschall.ImagePullSecrets.length > 0 then
        config ++ [("image_pull_secrets", jsonEncodeStringList fschall.ImagePullSecrets)]
      else config
    match env.setAllConfigErr with
    | some e => .error (.errInternal e)
    | none => .ok { pas := { stack.pas with config := setAllConfigMap stack.pas.config config } }

/-- The merge computed by `Additional`: start from an empty Go map, copy every
challenge entry, then every instance entry (so the instance's value wins on a
shared key). -/
def mergeAdditional (challAdd istAdd : List (String × String)) : List (String × String) :=
  let cm := challAdd.foldl (fun cm kv => mapSet cm kv.1 kv.2) []
  istAdd.foldl (fun cm kv => mapSet cm kv.1 kv.2) cm

/-- `Additional`: merge the challenge and instance `additional` maps
(instance winning on collision), JSON-encode the merged map, and set it under
the `additional` configuration key.  (`json.Marshal` of a `map[string]string`
cannot fail; the dead error branch of the source is not represented.) -/
def Additional (env : PulumiEnv) (stack : Stack) (challAdd istAdd : List (String × String)) :
    Except GoErr Stack :=
  let cm := mergeAdditional challAdd istAdd
  match env.setConfigErr with
  | some e => .error e
  | none =>
    .ok { pas := { stack.pas with
            config := mapSet stack.pas.config "additional" (jsonEncodeStringMap cm) } }

/-- The way the adapter invokes a scenario for a challenge record: stack
construction (`NewStack`) followed by setting the additional configuration
(`Additional`). -/
def scenarioConfig (env : PulumiEnv) (fschall : Challenge)
    (istAdd : List (String × String)) (id : String) : Except GoErr Stack :=
  match NewStack env fschall id with
  | .error e => .error e
  | .ok stack => Additional env stack fschall.Additional istAdd

/-! ## `pkg/iac/validate.go` -/

/-- `hex.EncodeToString` of a byte slice. -/
def hexEncode (bytes : List Nat) : String :=
  String.mk ((bytes.map (fun b => [hexDigit ((b % 256) / 16), hexDigit (b % 16)])).flatten)

/-- `randName`: hex-encode 8 random bytes. -/
def randName (bytes : List Nat) : String :=
  hexEncode bytes

/-- `Validate`: load the stack for a fresh random identity, set the `identity`
configuration, set the merged `additional` configuration (with no
instance-level map), and run a raw `stack.pas.Preview`.  Loading errors are
returned unchanged, configuration errors are wrapped in `ErrInternal`, and a
preview error is wrapped in `ErrScenario`. -/
def Validate (env : PulumiEnv) (fschall : Challenge) : Except GoErr Unit :=
  let rand := randName env.randBytes
  match LoadStack env fschall.Scenario rand with
  | .error e => .error e
  | .ok stack =>
    match env.setAllConfigErr with
    | some e => .error (.errInternal e)
    | none =>
      let stack := { pas := { stack.pas with
                      config := setAllConfigMap stack.pas.config [("identity", rand)] } }
      match Additional env stack fschall.Additional [] with
      | .error e => .error (.errInternal e)
      | .ok _ =>
        match env.rawPreview with
        | .error e => .error (.errScenario e)
        | .ok _ => .ok ()

/-! ## `(*Stack).Export` -/

/-- The outcome of `Export`, which mutates the instance record through a
pointer: an updated record, a returned error, or a Go runtime panic (the
source uses unchecked `.(string)` type assertions). -/
inductive ExportOutcome where
  | ok (ist : Instance)
  | err (e : GoErr)
  | panic (msg : String)

/-- The `flags` collection loop of `Export`: walk the `[]any`, failing on the
first element that is not a Go string
(`fmt.Errorf("invalid flag type for %v, should be a string", f)`; the
formatted value is abstracted out of the message). -/
def collectFlags : List OutVal → Except GoErr (List String)
  | [] => .ok []
  | .str s :: rest =>
    match collectFlags rest with
    | .ok l => .ok (s :: l)
    | .error e => .error e
  | _ :: _ => .error (.errInternal (.goMsg "invalid flag type, should be a string"))

/-- The final assignments of `Export`:
`ist.State = udp.Deployment; ist.ConnectionInfo = coninfo.Value.(string);
ist.Flags = flags`.  The `.(string)` assertion panics on a non-string
`connection_info` value. -/
def exportAssign (deployment : String) (coninfo : OutVal) (flags : List String)
    (ist : Instance) : ExportOutcome :=
  match coninfo with
  | .str s => .ok { ist with State := deployment, ConnectionInfo := s, Flags := flags }
  | _ => .panic "interface conversion: interface is not string"

/-- The tail of `Export` after the single-`flag` handling: process the
`flags` output, then perform the final assignments.  A `flags` output that is
not a `[]any` is silently ignored: the `if !ok` guard in the source re-tests
the map-presence `ok` of the enclosing `if` (which is `true` there), so the
"invalid flags type" error is unreachable. -/
def exportFlags (deployment : String) (outputs : List (String × OutVal)) (coninfo : OutVal)
    (flags : List String) (ist : Instance) : ExportOutcome :=
  match List.lookup "flags" outputs with
  | some (.list fs) =>
    match collectFlags fs with
    | .error e => .err e
    | .ok l => exportAssign deployment coninfo (flags ++ l) ist
  | some _ => exportAssign deployment coninfo flags ist
  | none => exportAssign deployment coninfo flags ist

/-- `Export`: serialize the deployment, check the outputs, read
`connection_info`, collect flags from the `flag` and `flags` outputs, and
assign `State`, `ConnectionInfo` and `Flags` on the instance record.

Two source subtleties are kept: a `flags` output that is not a `[]any` is
silently ignored (the `if !ok` guard in the source re-tests the map-presence
`ok` of the enclosing `if`, which is `true` there, so the
"invalid flags type" error is unreachable); and the `connection_info` value's
`.(string)` assertion is only executed after the flags have been collected. -/
def Stack.Export (env : PulumiEnv) (res : Option Result) (ist : Instance) : ExportOutcome :=
  match env.exportResult with
  | .error e => .err (.errInternal e)
  | .ok deployment =>
    match res with
    | none => .err (.errInternal (.goMsg "stack outputs are nil - stack operation may have failed"))
    | some r =>
      match r.sub.Outputs with
      | none =>
        .err (.errInternal (.goMsg "stack outputs are nil - stack operation may have failed"))
      | some outputs =>
        match List.lookup "connection_info" outputs with
        | none =>
          .err (.errInternal (.goMsg "connection_info output not found in stack outputs"))
        | some coninfo =>
          match List.lookup "flag" outputs with
          | some (.str s) => exportFlags deployment outputs coninfo [s] ist
          | some _ => .panic "interface conversion: interface is not string"
          | none => exportFlags deployment outputs coninfo [] ist

/-! ## `api/v1/challenge/secrets.go` — scenario ZIP extraction

`PushScenario` extracts the uploaded ZIP archive into a fresh temporary
directory, rejecting any entry whose joined path escapes it.  Go strings and
paths are embedded as `List Char` here (Go paths are byte strings; the slash
separator is what the code computes with), so that the lexical path
computations of `path/filepath` can be reasoned about structurally.
-/

/-- `strings.Split(s, "/")`. -/
def splitSlash : List Char → List (List Char)
  | [] => [[]]
  | c :: rest =>
    match splitSlash rest with
    | [] => [[]]
    | comp :: comps => if c = '/' then [] :: comp :: comps else (c :: comp) :: comps

/-- Join path components with `/` separators (no leading or trailing
separator). -/
def joinSep : List (List Char) → List Char
  | [] => []
  | [c] => c
  | c :: c' :: rest => c ++ '/' :: joinSep (c' :: rest)

/-- One step of `filepath.Clean`'s component processing: drop empty and `.`
components; on `..`, pop the last kept component (for a rooted path a `..` at
the root vanishes; for a relative path it is kept, and kept `..`s pile up at
the front). -/
def cleanStep (abs : Bool) (acc : List (List Char)) (c : List Char) : List (List Char) :=
  if c = [] ∨ c = ['.'] then acc
  else if c = ['.', '.'] then
    match acc.getLast? with
    | some last => if last = ['.', '.'] then acc ++ [c] else acc.dropLast
    | none => if abs then [] else [c]
  else acc ++ [c]

/-- `filepath.Clean`'s component processing over a whole component list. -/
def cleanComps (abs : Bool) (comps : List (List Char)) : List (List Char) :=
  comps.foldl (cleanStep abs) []

/-- Render a cleaned rooted path from its components (`/a/b/c`; just `/` when
there are none). -/
def renderAbs (comps : List (List Char)) : List Char :=
  '/' :: joinSep comps

/-- `filepath.Clean` (Unix rules): split on slashes, process `.` and `..`
components, and re-render; the empty and all-dots relative paths clean to
`.`. -/
def goClean (p : List Char) : List Char :=
  let abs := p.head? == some '/'
  let comps := cleanComps abs (splitSlash p)
  if abs then renderAbs comps
  else if comps = [] then ['.']
  else joinSep comps

/-- `filepath.Join(a, b)` (Unix rules): empty elements are dropped, the rest
are joined with `/` and cleaned; all-empty input yields the empty path. -/
def goJoin (a b : List Char) : List Char :=
  if a = [] then (if b = [] then [] else goClean b)
  else if b = [] then goClean a
  else goClean (a ++ '/' :: b)

/-- `filepath.Dir(p)`: everything up to and including the final slash,
cleaned (`.` when there is no slash, which `goClean` yields on the empty
prefix). -/
def goDir (p : List Char) : List Char :=
  goClean ((p.reverse.dropWhile (· != '/')).reverse)

/-- One entry of the uploaded ZIP archive (`zipReader.File`): its name, its
directory flag (`file.FileInfo().IsDir()`), and its content bytes. -/
structure ZipEntry where
  name : List Char
  isDir : Bool
  content : List Char

/-- A gRPC status error built by `status.Errorf`. -/
structure StatusErr where
  code : ErrCode
  msg : List Char
  deriving DecidableEq, Repr

/-- The filesystem effects of the extraction loop: the directories created
(`os.MkdirAll` targets) and the files created with their contents. -/
structure ExtractState where
  dirs : List (List Char)
  files : List (List Char × List Char)
  deriving DecidableEq, Repr

/-- The extraction loop of `PushScenario` over the ZIP entries, from a given
temporary directory.  Each entry's path is `filepath.Join(tmpDir, file.Name)`;
an entry whose joined path does not start with `filepath.Clean(tmpDir) + "/"`
aborts the loop with an `InvalidArgument` status before anything is written
for it.  Directory entries are created with `os.MkdirAll(path)`; file entries
create their parent with `os.MkdirAll(filepath.Dir(path))` and then write the
file.  The OS-level calls are modelled as succeeding (on an OS failure the
source aborts with an `Internal` status, writing nothing further). -/
def extractZip (tmpDir : List Char) : List ZipEntry → ExtractState →
    ExtractState × Option StatusErr
  | [], st => (st, none)
  | file :: rest, st =>
    let path := goJoin tmpDir file.name
    if (goClean tmpDir ++ ['/']).isPrefixOf path then
      if file.isDir then
        extractZip tmpDir rest { st with dirs := st.dirs ++ [path] }
      else
        extractZip tmpDir rest
          { st with dirs := st.dirs ++ [goDir path],
                    files := st.files ++ [(path, file.content)] }
    else
      (st, some { code := .invalidArgument,
                  msg := ("invalid file path in ZIP: ".data ++ file.name) })

/-- A path component a cleaned path may contain: non-empty, not a dot word,
and slash-free. -/
def GoodComp (c : List Char) : Prop :=
  c ≠ [] ∧ c ≠ ['.'] ∧ c ≠ ['.', '.'] ∧ '/' ∉ c

instance : DecidablePred GoodComp := fun c => by unfold GoodComp; infer_instance

/-- All components of a component list are good. -/
def GoodComps (l : List (List Char)) : Prop :=
  ∀ c ∈ l, GoodComp c

instance : DecidablePred GoodComps := fun l => by unfold GoodComps; infer_instance

/-- The resolution of a ZIP entry name against the extraction directory given
by components `ts`: the cleaned components of `tmpDir/name`. -/
def resolveComps (ts : List (List Char)) (name : List Char) : List (List Char) :=
  cleanComps true (ts ++ splitSlash name)

/-- An entry name resolves outside the extraction directory when the cleaned
components of `tmpDir/name` are not a strict extension of the directory's own
components. -/
def resolvesOutside (ts : List (List Char)) (name : List Char) : Prop :=
  ¬ (ts <+: resolveComps ts name ∧ ts ≠ resolveComps ts name)

instance : ∀ ts name, Decidable (resolvesOutside ts name) := fun ts name => by
  unfold resolvesOutside; infer_instance

/-- A path that lies strictly inside the directory whose components are `ts`:
it renders from a good, strictly extending component list (in particular it
contains no `..`). -/
def insideStrict (ts : List (List Char)) (p : List Char) : Prop :=
  ∃ cs, GoodComps cs ∧ ts <+: cs ∧ ts ≠ cs ∧ p = renderAbs cs

/-! ## Concrete fixtures used by the witnesses and counterexamples -/

/-- A configuration with a given `PulumiTimeout`, other fields as deployed. -/
def confWithTimeout (t : Int) : Configuration :=
  { Directory := "/data", Cache := "/cache", LogLevel := "info", PulumiTimeout := t,
    Otel := { Tracing := false, ServiceName := "chall-manager" },
    Etcd := { Endpoint := "", Username := "", Password := "" },
    OCI := { Insecure := false, Username := "", Password := "" } }

/-- An environment in which every external call succeeds. -/
def okEnv : PulumiEnv :=
  { ociLoad := fun _ => .ok "/cache/oci/dir",
    readPulumiYaml := fun _ => some "name: demo",
    readPulumiYml := fun _ => none,
    yamlProject := fun _ => .ok { name := "demo" },
    newWorkspaceErr := none, upsertErr := none,
    setAllConfigErr := none, setConfigErr := none,
    rawPreview := .ok (), exportResult := .ok "deployment-bytes",
    randBytes := [1, 2, 171, 205, 18, 52, 86, 120] }

/-- `okEnv`, except that the scenario's Pulumi YAML does not parse. -/
def badYamlEnv : PulumiEnv :=
  { okEnv with yamlProject := fun _ => .error (.goMsg "yaml: unmarshal errors") }

/-- A challenge record whose `image_pull_secrets` list is empty. -/
def chall0 : Challenge :=
  { ID := "c1", Scenario := "./fixtures/static", Hash := "", Until := none,
    Timeout := none, Min := none, Max := none,
    Additional := [("k", "v")], ImagePullSecrets := [] }

/-- A challenge record with one image pull secret. -/
def chall1 : Challenge :=
  { chall0 with ID := "c2", ImagePullSecrets := ["reg-creds"] }

/-- An instance record fixture. -/
def ist0 : Instance :=
  { Identity := "9cfe8e993269e4c1", ChallengeID := "c1", SourceID := "u1",
    Since := 100, LastRenew := 150, Until := some 200,
    ConnectionInfo := "", Flags := [], State := "",
    Additional := [("user", "inst")] }

/-- Components of a concrete temporary extraction directory
(`/tmp/scenario-push-42`). -/
def tmpComps : List (List Char) :=
  ["tmp".data, "scenario-push-42".data]

/-- A concrete uploaded archive: one honest entry and one entry attempting
path traversal. -/
def zipEntries : List ZipEntry :=
  [{ name := "Pulumi.yaml".data, isDir := false, content := "name: demo".data },
   { name := "../evil.txt".data, isDir := false, content := "x".data }]

/-! # Theorems

## Claims C1 and C2 — per-operation deadline behaviour -/

/-- C1 (counterexample): at a concrete engine run whose deadline has expired,
`Up` returns an error whose kind is `Internal`, not `DeadlineExceeded` — the
claim that expiry yields a `DeadlineExceeded` error is false on the code. -/
theorem c1_counterexample :
    Stack.Up (confWithTimeout 5)
        (fun _ => ⟨.error (.engine "context deadline exceeded"), true⟩)
      = .error (.errInternal (.wrapped "pulumi operation timed out after 5"
          (.engine "context deadline exceeded"))) ∧
    GoErr.grpcCode (.errInternal (.wrapped "pulumi operation timed out after 5"
        (.engine "context deadline exceeded"))) ≠ some ErrCode.deadlineExceeded :=
  ⟨rfl, by decide⟩

/-- C1 (amended): for every engine operation (`Up`, `Preview`, `Down`), when
the per-operation deadline expires the operation returns an `ErrInternal` —
mapped to the `Internal` gRPC code, not `DeadlineExceeded` — wrapping the
engine's last error. -/
theorem c1_expiry_yields_internal
    (conf : Configuration)
    (runU : Int → EngineRun UpResultData) (runP runD : Int → EngineRun Unit)
    (eU eP eD : GoErr)
    (hU1 : (runU (operationTimeout conf)).result = .error eU)
    (hU2 : (runU (operationTimeout conf)).deadlineExpired = true)
    (hP1 : (runP (operationTimeout conf)).result = .error eP)
    (hP2 : (runP (operationTimeout conf)).deadlineExpired = true)
    (hD1 : (runD (operationTimeout conf)).result = .error eD)
    (hD2 : (runD (operationTimeout conf)).deadlineExpired = true) :
    (Stack.Up conf runU = .error (.errInternal (.wrapped
        ("pulumi operation timed out after " ++ toString (operationTimeout conf)) eU)) ∧
      GoErr.grpcCode (.errInternal (.wrapped
        ("pulumi operation timed out after " ++ toString (operationTimeout conf)) eU)) =
        some .internal) ∧
    (Stack.Preview conf runP = .error (.errInternal (.wrapped
        ("pulumi preview timed out after " ++ toString (operationTimeout conf)) eP)) ∧
      GoErr.grpcCode (.errInternal (.wrapped
        ("pulumi preview timed out after " ++ toString (operationTimeout conf)) eP)) =
        some .internal) ∧
    (Stack.Down conf runD = .error (.errInternal (.wrapped
        ("pulumi destroy timed out after " ++ toString (operationTimeout conf)) eD)) ∧
      GoErr.grpcCode (.errInternal (.wrapped
        ("pulumi destroy timed out after " ++ toString (operationTimeout conf)) eD)) =
        some .internal) := by
  refine ⟨⟨?_, rfl⟩, ⟨?_, rfl⟩, ⟨?_, rfl⟩⟩ <;>
    simp [Stack.Up, Stack.Preview, Stack.Down, hU1, hU2, hP1, hP2, hD1, hD2]

/-- Witness for the amended C1 theorem at concrete expired runs. -/
theorem c1_expiry_yields_internal_witness :
    (Stack.Up (confWithTimeout 5)
        (fun _ => ⟨.error (.engine "up: context deadline exceeded"), true⟩)
      = .error (.errInternal (.wrapped "pulumi operation timed out after 5"
          (.engine "up: context deadline exceeded"))) ∧
      GoErr.grpcCode (.errInternal (.wrapped "pulumi operation timed out after 5"
        (.engine "up: context deadline exceeded"))) = some .internal) ∧
    (Stack.Preview (confWithTimeout 5)
        (fun _ => ⟨.error (.engine "preview: context deadline exceeded"), true⟩)
      = .error (.errInternal (.wrapped "pulumi preview timed out after 5"
          (.engine "preview: context deadline exceeded"))) ∧
      GoErr.grpcCode (.errInternal (.wrapped "pulumi preview timed out after 5"
        (.engine "preview: context deadline exceeded"))) = some .internal) ∧
    (Stack.Down (confWithTimeout 5)
        (fun _ => ⟨.error (.engine "destroy: context deadline exceeded"), true⟩)
      = .error (.errInternal (.wrapped "pulumi destroy timed out after 5"
          (.engine "destroy: context deadline exceeded"))) ∧
      GoErr.grpcCode (.errInternal (.wrapped "pulumi destroy timed out after 5"
        (.engine "destroy: context deadline exceeded"))) = some .internal) :=
  c1_expiry_yields_internal (confWithTimeout 5)
    (fun _ => ⟨.error (.engine "up: context deadline exceeded"), true⟩)
    (fun _ => ⟨.error (.engine "preview: context deadline exceeded"), true⟩)
    (fun _ => ⟨.error (.engine "destroy: context deadline exceeded"), true⟩)
    (.engine "up: context deadline exceeded")
    (.engine "preview: context deadline exceeded")
    (.engine "destroy: context deadline exceeded")
    rfl rfl rfl rfl rfl rfl

/-- C2 (code-bug evidence): setting `PulumiTimeout` to `0` does not disable
the per-operation deadline, contrary to `global.Configuration`'s own
documentation ("Set to 0 to disable timeout"); the operations compute the
2-minute default instead, so `Up` under `PulumiTimeout = 0` behaves exactly
as under `PulumiTimeout = 120`. -/
theorem c2_timeout_zero_is_two_minute_default :
    operationTimeout (confWithTimeout 0) = 120 ∧
    ∀ run : Int → EngineRun UpResultData,
      Stack.Up (confWithTimeout 0) run = Stack.Up (confWithTimeout 120) run := by
  exact ⟨rfl, fun run => rfl⟩

/-! ## Helper lemmas on Go map embeddings and stack loading -/

/-- `List.lookup` over a cons cell, phrased with propositional equality. -/
theorem lookup_cons_eq_ite (a b k : String) (l : List (String × String)) :
    List.lookup k ((a, b) :: l) = if k = a then some b else List.lookup k l := by
  by_cases h : k = a
  · simp [List.lookup, h]
  · simp [List.lookup, h, beq_eq_false_iff_ne.mpr h]

/-- A key absent from a map's key list looks up to `none`. -/
theorem lookup_eq_none_of_not_mem_keys (l : List (String × String)) (k : String)
    (h : k ∉ l.map Prod.fst) : List.lookup k l = none := by
  induction l with
  | nil => rfl
  | cons p rest ih =>
    obtain ⟨a, b⟩ := p
    simp only [List.map_cons, List.mem_cons] at h
    push_neg at h
    rw [lookup_cons_eq_ite, if_neg h.1]
    exact ih h.2

/-- `List.lookup` after a Go map assignment: the assigned key now maps to the
assigned value, every other key is unchanged. -/
theorem lookup_mapSet (m : List (String × String)) (k v k' : String) :
    List.lookup k' (mapSet m k v) = if k' = k then some v else List.lookup k' m := by
  induction m with
  | nil =>
    simp only [mapSet]
    rw [lookup_cons_eq_ite]
  | cons p rest ih =>
    obtain ⟨a, b⟩ := p
    by_cases hak : a = k
    · subst hak
      have hm : mapSet ((a, b) :: rest) a v = (a, v) :: rest := by simp [mapSet]
      rw [hm, lookup_cons_eq_ite, lookup_cons_eq_ite]
      by_cases h : k' = a <;> simp [h]
    · simp only [mapSet, if_neg hak]
      rw [lookup_cons_eq_ite, lookup_cons_eq_ite, ih]
      by_cases h1 : k' = a <;> by_cases h2 : k' = k <;> simp_all

/-- Folding Go map assignments over a list with distinct keys: a key maps to
its binding in the list when present, else to its binding in the initial
map. -/
theorem lookup_foldl_mapSet (l : List (String × String)) (m : List (String × String))
    (k : String) (h : (l.map Prod.fst).Nodup) :
    List.lookup k (l.foldl (fun cm kv => mapSet cm kv.1 kv.2) m)
      = (List.lookup k l).or (List.lookup k m) := by
  induction l generalizing m with
  | nil => simp [List.lookup]
  | cons p rest ih =>
    obtain ⟨a, b⟩ := p
    have hmem : a ∉ rest.map Prod.fst := (List.nodup_cons.mp h).1
    have hrest : (rest.map Prod.fst).Nodup := (List.nodup_cons.mp h).2
    simp only [List.foldl_cons]
    rw [ih (mapSet m a b) hrest, lookup_mapSet, lookup_cons_eq_ite]
    by_cases hka : k = a
    · subst hka
      rw [lookup_eq_none_of_not_mem_keys rest k hmem]
      simp
    · simp [hka]

/-- The merge computed by `Additional`: the instance map's binding wins, the
challenge map's binding is the fallback — hence the key set is the union. -/
theorem lookup_mergeAdditional (A B : List (String × String)) (k : String)
    (hA : (A.map Prod.fst).Nodup) (hB : (B.map Prod.fst).Nodup) :
    List.lookup k (mergeAdditional A B) = (List.lookup k B).or (List.lookup k A) := by
  unfold mergeAdditional
  rw [lookup_foldl_mapSet _ _ _ hB, lookup_foldl_mapSet _ _ _ hA]
  cases List.lookup k B <;> simp [List.lookup]

/-- `LoadStack` on a working directory whose project descriptor parses with
name `P`: the upserted stack is `organization/P/id` with an empty
configuration. -/
theorem loadStack_ok (env : PulumiEnv) (scenario id dir b P : String)
    (h1 : env.ociLoad scenario = .ok dir)
    (h2 : loadPulumiYml env dir = .ok b)
    (h3 : env.yamlProject b = .ok { name := P })
    (h4 : env.newWorkspaceErr = none)
    (h5 : env.upsertErr = none) :
    LoadStack env scenario id
      = .ok { pas := { name := FullyQualifiedStackName "organization" P id, config := [] } } := by
  simp [LoadStack, h1, h2, h3, h4, h5]

/-! ## Claim C8 — stack naming -/

/-- C8: `LoadStack` with identity `id` on a scenario whose project descriptor
declares name `P` opens/creates the stack fully qualified as
`organization/P/id`. -/
theorem c8_load_stack_fully_qualified_name
    (env : PulumiEnv) (scenario id dir b P : String)
    (h1 : env.ociLoad scenario = .ok dir)
    (h2 : loadPulumiYml env dir = .ok b)
    (h3 : env.yamlProject b = .ok { name := P })
    (h4 : env.newWorkspaceErr = none)
    (h5 : env.upsertErr = none) :
    LoadStack env scenario id
      = .ok { pas := { name := FullyQualifiedStackName "organization" P id, config := [] } } ∧
    FullyQualifiedStackName "organization" P id = "organization" ++ "/" ++ P ++ "/" ++ id :=
  ⟨loadStack_ok env scenario id dir b P h1 h2 h3 h4 h5, rfl⟩

/-- Witness for C8 on the all-succeeding environment. -/
theorem c8_load_stack_fully_qualified_name_witness :
    LoadStack okEnv "./fixtures/static" "id0"
      = .ok { pas := { name := FullyQualifiedStackName "organization" "demo" "id0",
                       config := [] } } ∧
    FullyQualifiedStackName "organization" "demo" "id0"
      = "organization" ++ "/" ++ "demo" ++ "/" ++ "id0" :=
  c8_load_stack_fully_qualified_name okEnv "./fixtures/static" "id0" "/cache/oci/dir"
    "name: demo" "demo" rfl rfl rfl rfl rfl

/-! ## Claim C4 — merged `additional` configuration -/

/-- C4: `Additional` sets, under the `additional` key, the JSON encoding of
the merged map; the merged map binds every key of either input, the
instance-level value winning on a collision. -/
theorem c4_additional_merged_config
    (env : PulumiEnv) (stack : Stack) (A B : List (String × String))
    (hA : (A.map Prod.fst).Nodup) (hB : (B.map Prod.fst).Nodup)
    (h : env.setConfigErr = none) :
    Additional env stack A B = .ok { pas := { stack.pas with
        config := mapSet stack.pas.config "additional"
                    (jsonEncodeStringMap (mergeAdditional A B)) } } ∧
    (∀ s, Additional env stack A B = .ok s →
      List.lookup "additional" s.pas.config
        = some (jsonEncodeStringMap (mergeAdditional A B))) ∧
    (∀ k, List.lookup k (mergeAdditional A B) = (List.lookup k B).or (List.lookup k A)) := by
  refine ⟨by simp [Additional, h], ?_, fun k => lookup_mergeAdditional A B k hA hB⟩
  intro s hs
  simp [Additional, h] at hs
  rw [← hs, lookup_mapSet]
  simp

/-- Witness for C4 on concrete maps with a colliding key. -/
theorem c4_additional_merged_config_witness :
    (Additional okEnv { pas := { name := "organization/demo/id0", config := [] } }
        [("k", "challenge"), ("x", "1")] [("k", "instance")]
      = .ok { pas := { name := "organization/demo/id0",
                       config := mapSet [] "additional" (jsonEncodeStringMap
                         (mergeAdditional [("k", "challenge"), ("x", "1")]
                           [("k", "instance")])) } }) ∧
    (∀ s, Additional okEnv { pas := { name := "organization/demo/id0", config := [] } }
        [("k", "challenge"), ("x", "1")] [("k", "instance")] = .ok s →
      List.lookup "additional" s.pas.config
        = some (jsonEncodeStringMap
            (mergeAdditional [("k", "challenge"), ("x", "1")] [("k", "instance")]))) ∧
    (∀ k, List.lookup k (mergeAdditional [("k", "challenge"), ("x", "1")] [("k", "instance")])
        = (List.lookup k [("k", "instance")]).or
            (List.lookup k [("k", "challenge"), ("x", "1")])) :=
  c4_additional_merged_config okEnv { pas := { name := "organization/demo/id0", config := [] } }
    [("k", "challenge"), ("x", "1")] [("k", "instance")]
    (by decide) (by decide) rfl

/-! ## Claim C5 — configuration keys set when invoking a scenario -/

/-- C5 (counterexample): for a challenge whose `image_pull_secrets` list is
empty, invoking the scenario does not set the `image_pull_secrets`
configuration key at all — the claim that all four keys are always set is
false on the code. -/
theorem c5_counterexample :
    ∃ stack, scenarioConfig okEnv chall0 [] "id0" = .ok stack ∧
      List.lookup "image_pull_secrets" stack.pas.config = none ∧
      chall0.ImagePullSecrets = [] := by
  exact ⟨_, rfl, by decide, rfl⟩

/-- C5 (amended): invoking a scenario (stack construction followed by setting
the additional configuration) always sets `identity`, `challenge_id` and
`additional` (the JSON-encoded merged map); it sets `image_pull_secrets` (the
JSON-encoded list) exactly when the challenge's list is non-empty, and leaves
the key unset when the list is empty. -/
theorem c5_scenario_config_keys
    (env : PulumiEnv) (fschall : Challenge) (istAdd : List (String × String))
    (id dir b P : String)
    (h1 : env.ociLoad fschall.Scenario = .ok dir)
    (h2 : loadPulumiYml env dir = .ok b)
    (h3 : env.yamlProject b = .ok { name := P })
    (h4 : env.newWorkspaceErr = none)
    (h5 : env.upsertErr = none)
    (h6 : env.setAllConfigErr = none)
    (h7 : env.setConfigErr = none) :
    ∃ stack, scenarioConfig env fschall istAdd id = .ok stack ∧
      List.lookup "identity" stack.pas.config = some id ∧
      List.lookup "challenge_id" stack.pas.config = some fschall.ID ∧
      List.lookup "additional" stack.pas.config
        = some (jsonEncodeStringMap (mergeAdditional fschall.Additional istAdd)) ∧
      (fschall.ImagePullSecrets ≠ [] →
        List.lookup "image_pull_secrets" stack.pas.config
          = some (jsonEncodeStringList fschall.ImagePullSecrets)) ∧
      (fschall.ImagePullSecrets = [] →
        List.lookup "image_pull_secrets" stack.pas.config = none) := by
  have hload := loadStack_ok env fschall.Scenario id dir b P h1 h2 h3 h4 h5
  have hsc : scenarioConfig env fschall istAdd id = .ok { pas :=
      { name := FullyQualifiedStackName "organization" P id,
        config := mapSet (setAllConfigMap []
          (if fschall.ImagePullSecrets.length > 0 then
            [("identity", id), ("challenge_id", fschall.ID)]
              ++ [("image_pull_secrets", jsonEncodeStringList fschall.ImagePullSecrets)]
          else [("identity", id), ("challenge_id", fschall.ID)]))
          "additional" (jsonEncodeStringMap (mergeAdditional fschall.Additional istAdd)) } } := by
    simp only [scenarioConfig, NewStack, hload, h6, Additional, h7]
  refine ⟨_, hsc, ?_⟩
  rcases hips : fschall.ImagePullSecrets with _ | ⟨ip, ips⟩ <;>
    simp [hips, setAllConfigMap, lookup_mapSet, lookup_cons_eq_ite, mapSet]

/-- Witness for the amended C5 theorem, on a challenge with one image pull
secret. -/
theorem c5_scenario_config_keys_witness :
    ∃ stack, scenarioConfig okEnv chall1 [("u", "1")] "id0" = .ok stack ∧
      List.lookup "identity" stack.pas.config = some "id0" ∧
      List.lookup "challenge_id" stack.pas.config = some chall1.ID ∧
      List.lookup "additional" stack.pas.config
        = some (jsonEncodeStringMap (mergeAdditional chall1.Additional [("u", "1")])) ∧
      (chall1.ImagePullSecrets ≠ [] →
        List.lookup "image_pull_secrets" stack.pas.config
          = some (jsonEncodeStringList chall1.ImagePullSecrets)) ∧
      (chall1.ImagePullSecrets = [] →
        List.lookup "image_pull_secrets" stack.pas.config = none) :=
  c5_scenario_config_keys okEnv chall1 [("u", "1")] "id0" "/cache/oci/dir" "name: demo" "demo"
    rfl rfl rfl rfl rfl rfl rfl

/-! ## Claim C6 — `Validate` behaviour -/

/-- C6 (counterexample): on a scenario whose Pulumi YAML does not parse,
`Validate` returns a scenario error (mapped to `InvalidArgument`) although
`Preview` never failed — so the claim "a scenario error exactly when Preview
fails, an Internal error when stack loading fails" is false on the code. -/
theorem c6_counterexample :
    Validate badYamlEnv chall0
      = .error (.errScenario (.wrapped "invalid Pulumi YAML content"
          (.goMsg "yaml: unmarshal errors"))) ∧
    GoErr.grpcCode (.errScenario (.wrapped "invalid Pulumi YAML content"
        (.goMsg "yaml: unmarshal errors"))) = some ErrCode.invalidArgument ∧
    badYamlEnv.rawPreview = .ok () :=
  ⟨rfl, rfl, rfl⟩

/-- C6 (amended): `Validate` generates a random identity, sets it and the
challenge's merged `additional` map as stack configuration, and runs
`Preview`.  A `Preview` failure yields a scenario error (`InvalidArgument`);
configuration failures yield `Internal`; loading failures are propagated
unchanged — in particular a missing or unparsable project descriptor yields a
scenario error, not `Internal`; success is returned exactly when everything
succeeded. -/
theorem c6_validate_error_mapping
    (env : PulumiEnv) (fschall : Challenge) (dir b P : String)
    (h1 : env.ociLoad fschall.Scenario = .ok dir)
    (h2 : loadPulumiYml env dir = .ok b)
    (h3 : env.yamlProject b = .ok { name := P })
    (h4 : env.newWorkspaceErr = none)
    (h5 : env.upsertErr = none) :
    (∀ e, env.setAllConfigErr = some e → Validate env fschall = .error (.errInternal e)) ∧
    (env.setAllConfigErr = none → ∀ e, env.setConfigErr = some e →
      Validate env fschall = .error (.errInternal e)) ∧
    (env.setAllConfigErr = none → env.setConfigErr = none →
      ∀ e, env.rawPreview = .error e →
        Validate env fschall = .error (.errScenario e) ∧
        GoErr.grpcCode (.errScenario e) = some ErrCode.invalidArgument) ∧
    (env.setAllConfigErr = none → env.setConfigErr = none → env.rawPreview = .ok () →
      Validate env fschall = .ok ()) ∧
    (∀ env' : PulumiEnv, ∀ e, env'.ociLoad fschall.Scenario = .error e →
      Validate env' fschall = .error e) ∧
    (∀ env' : PulumiEnv, ∀ dir', env'.ociLoad fschall.Scenario = .ok dir' →
      env'.readPulumiYaml dir' = none → env'.readPulumiYml dir' = none →
      Validate env' fschall = .error (.errScenario (.wrapped "no Pulumi.yaml/Pulumi.yml file"
        (.goMsg "no such file or directory")))) ∧
    (∀ env' : PulumiEnv, ∀ dir' b' e, env'.ociLoad fschall.Scenario = .ok dir' →
      loadPulumiYml env' dir' = .ok b' → env'.yamlProject b' = .error e →
      Validate env' fschall = .error (.errScenario (.wrapped "invalid Pulumi YAML content" e))) := by
  have hload := loadStack_ok env fschall.Scenario (randName env.randBytes) dir b P h1 h2 h3 h4 h5
  refine ⟨?_, ?_, ?_, ?_, ?_, ?_, ?_⟩
  · intro e he
    simp [Validate, hload, he]
  · intro hs e he
    simp [Validate, hload, hs, Additional, he]
  · intro hs hc e he
    exact ⟨by simp [Validate, hload, hs, Additional, hc, he], rfl⟩
  · intro hs hc hp
    simp [Validate, hload, hs, Additional, hc, hp]
  · intro env' e he
    simp [Validate, LoadStack, he]
  · intro env' dir' ho hy1 hy2
    simp [Validate, LoadStack, loadPulumiYml, ho, hy1, hy2]
  · intro env' dir' b' e ho hy hp
    simp [Validate, LoadStack, ho, hy, hp]

/-- Witness for the amended C6 theorem on the all-succeeding environment. -/
theorem c6_validate_error_mapping_witness :
    ((∀ e, okEnv.setAllConfigErr = some e → Validate okEnv chall0 = .error (.errInternal e)) ∧
    (okEnv.setAllConfigErr = none → ∀ e, okEnv.setConfigErr = some e →
      Validate okEnv chall0 = .error (.errInternal e)) ∧
    (okEnv.setAllConfigErr = none → okEnv.setConfigErr = none →
      ∀ e, okEnv.rawPreview = .error e →
        Validate okEnv chall0 = .error (.errScenario e) ∧
        GoErr.grpcCode (.errScenario e) = some ErrCode.invalidArgument) ∧
    (okEnv.setAllConfigErr = none → okEnv.setConfigErr = none → okEnv.rawPreview = .ok () →
      Validate okEnv chall0 = .ok ()) ∧
    (∀ env' : PulumiEnv, ∀ e, env'.ociLoad chall0.Scenario = .error e →
      Validate env' chall0 = .error e) ∧
    (∀ env' : PulumiEnv, ∀ dir', env'.ociLoad chall0.Scenario = .ok dir' →
      env'.readPulumiYaml dir' = none → env'.readPulumiYml dir' = none →
      Validate env' chall0 = .error (.errScenario (.wrapped "no Pulumi.yaml/Pulumi.yml file"
        (.goMsg "no such file or directory")))) ∧
    (∀ env' : PulumiEnv, ∀ dir' b' e, env'.ociLoad chall0.Scenario = .ok dir' →
      loadPulumiYml env' dir' = .ok b' → env'.yamlProject b' = .error e →
      Validate env' chall0 = .error (.errScenario (.wrapped "invalid Pulumi YAML content" e)))) ∧
    Validate okEnv chall0 = .ok () := by
  have h := c6_validate_error_mapping okEnv chall0 "/cache/oci/dir" "name: demo" "demo"
    rfl rfl rfl rfl rfl
  exact ⟨h, h.2.2.2.1 rfl rfl rfl⟩

/-! ## Helper lemmas on the flags collection loop -/

/-- Collecting a `[]any` whose members are all strings yields exactly those
strings, in order. -/
theorem collectFlags_map_str (L : List String) : collectFlags (L.map OutVal.str) = .ok L := by
  induction L with
  | nil => rfl
  | cons s rest ih => simp [collectFlags, ih]

/-- Collecting a `[]any` with a non-string member fails with the
invalid-output error. -/
theorem collectFlags_mem_not_str (fs : List OutVal) (v : OutVal) (hv : v ∈ fs)
    (h : v.isStr = false) :
    collectFlags fs = .error (.errInternal (.goMsg "invalid flag type, should be a string")) := by
  induction fs with
  | nil => cases hv
  | cons f rest ih =>
    cases f with
    | str s =>
      have hvr : v ∈ rest := by
        rcases List.mem_cons.mp hv with h1 | h1
        · subst h1; simp [OutVal.isStr] at h
        · exact h1
      simp [collectFlags, ih hvr]
    | list l => rfl
    | other t => rfl

/-! ## Claim C3 — `flag` / `flags` outputs -/

/-- C3: `Export` accepts a single-string `flag` output, a list-of-strings
`flags` output, or both (single flag first, then the `flags` entries in
order); a non-string entry in `flags` fails the operation with the
invalid-output error. -/
theorem c3_export_flag_and_flags
    (env : PulumiEnv) (dep c : String) (outputs : List (String × OutVal))
    (ist : Instance) (s : String) (L : List String) (fs : List OutVal) (v : OutVal)
    (hx : env.exportResult = .ok dep)
    (hc : List.lookup "connection_info" outputs = some (.str c)) :
    (List.lookup "flag" outputs = some (.str s) → List.lookup "flags" outputs = none →
      Stack.Export env (some ⟨⟨some outputs⟩⟩) ist
        = .ok { ist with State := dep, ConnectionInfo := c, Flags := [s] }) ∧
    (List.lookup "flag" outputs = none →
      List.lookup "flags" outputs = some (.list (L.map OutVal.str)) →
      Stack.Export env (some ⟨⟨some outputs⟩⟩) ist
        = .ok { ist with State := dep, ConnectionInfo := c, Flags := L }) ∧
    (List.lookup "flag" outputs = some (.str s) →
      List.lookup "flags" outputs = some (.list (L.map OutVal.str)) →
      Stack.Export env (some ⟨⟨some outputs⟩⟩) ist
        = .ok { ist with State := dep, ConnectionInfo := c, Flags := s :: L }) ∧
    ((List.lookup "flag" outputs = none ∨ List.lookup "flag" outputs = some (.str s)) →
      List.lookup "flags" outputs = some (.list fs) → v ∈ fs → v.isStr = false →
      Stack.Export env (some ⟨⟨some outputs⟩⟩) ist
        = .err (.errInternal (.goMsg "invalid flag type, should be a string"))) := by
  refine ⟨?_, ?_, ?_, ?_⟩
  · intro hf hfs
    simp [Stack.Export, exportFlags, exportAssign, hx, hc, hf, hfs]
  · intro hf hfs
    simp [Stack.Export, exportFlags, exportAssign, hx, hc, hf, hfs, collectFlags_map_str]
  · intro hf hfs
    simp [Stack.Export, exportFlags, exportAssign, hx, hc, hf, hfs, collectFlags_map_str]
  · intro hf hfs hv hns
    rcases hf with hf | hf <;>
      simp [Stack.Export, exportFlags, exportAssign, hx, hc, hf, hfs,
        collectFlags_mem_not_str fs v hv hns]

/-- Witness for C3 with both outputs present and, for the failure conjunct,
a non-string entry. -/
theorem c3_export_flag_and_flags_witness :
    (List.lookup "flag"
        [("connection_info", OutVal.str "nc 127.0.0.1:31000"), ("flag", OutVal.str "flag-one"),
         ("flags", OutVal.list [OutVal.str "f2", OutVal.str "f3"])] = some (.str "flag-one") →
      List.lookup "flags"
        [("connection_info", OutVal.str "nc 127.0.0.1:31000"), ("flag", OutVal.str "flag-one"),
         ("flags", OutVal.list [OutVal.str "f2", OutVal.str "f3"])] = none →
      Stack.Export okEnv (some ⟨⟨some
        [("connection_info", OutVal.str "nc 127.0.0.1:31000"), ("flag", OutVal.str "flag-one"),
         ("flags", OutVal.list [OutVal.str "f2", OutVal.str "f3"])]⟩⟩) ist0
        = .ok { ist0 with State := "deployment-bytes", ConnectionInfo := "nc 127.0.0.1:31000",
                          Flags := ["flag-one"] }) ∧
    (List.lookup "flag"
        [("connection_info", OutVal.str "nc 127.0.0.1:31000"), ("flag", OutVal.str "flag-one"),
         ("flags", OutVal.list [OutVal.str "f2", OutVal.str "f3"])] = none →
      List.lookup "flags"
        [("connection_info", OutVal.str "nc 127.0.0.1:31000"), ("flag", OutVal.str "flag-one"),
         ("flags", OutVal.list [OutVal.str "f2", OutVal.str "f3"])]
        = some (.list (["f2", "f3"].map OutVal.str)) →
      Stack.Export okEnv (some ⟨⟨some
        [("connection_info", OutVal.str "nc 127.0.0.1:31000"), ("flag", OutVal.str "flag-one"),
         ("flags", OutVal.list [OutVal.str "f2", OutVal.str "f3"])]⟩⟩) ist0
        = .ok { ist0 with State := "deployment-bytes", ConnectionInfo := "nc 127.0.0.1:31000",
                          Flags := ["f2", "f3"] }) ∧
    (List.lookup "flag"
        [("connection_info", OutVal.str "nc 127.0.0.1:31000"), ("flag", OutVal.str "flag-one"),
         ("flags", OutVal.list [OutVal.str "f2", OutVal.str "f3"])] = some (.str "flag-one") →
      List.lookup "flags"
        [("connection_info", OutVal.str "nc 127.0.0.1:31000"), ("flag", OutVal.str "flag-one"),
         ("flags", OutVal.list [OutVal.str "f2", OutVal.str "f3"])]
        = some (.list (["f2", "f3"].map OutVal.str)) →
      Stack.Export okEnv (some ⟨⟨some
        [("connection_info", OutVal.str "nc 127.0.0.1:31000"), ("flag", OutVal.str "flag-one"),
         ("flags", OutVal.list [OutVal.str "f2", OutVal.str "f3"])]⟩⟩) ist0
        = .ok { ist0 with State := "deployment-bytes", ConnectionInfo := "nc 127.0.0.1:31000",
                          Flags := "flag-one" :: ["f2", "f3"] }) ∧
    ((List.lookup "flag"
        [("connection_info", OutVal.str "nc 127.0.0.1:31000"), ("flag", OutVal.str "flag-one"),
         ("flags", OutVal.list [OutVal.str "f2", OutVal.str "f3"])] = none ∨
      List.lookup "flag"
        [("connection_info", OutVal.str "nc 127.0.0.1:31000"), ("flag", OutVal.str "flag-one"),
         ("flags", OutVal.list [OutVal.str "f2", OutVal.str "f3"])] = some (.str "flag-one")) →
      List.lookup "flags"
        [("connection_info", OutVal.str "nc 127.0.0.1:31000"), ("flag", OutVal.str "flag-one"),
         ("flags", OutVal.list [OutVal.str "f2", OutVal.str "f3"])]
        = some (.list [OutVal.other "int"]) →
      OutVal.other "int" ∈ [OutVal.other "int"] → (OutVal.other "int").isStr = false →
      Stack.Export okEnv (some ⟨⟨some
        [("connection_info", OutVal.str "nc 127.0.0.1:31000"), ("flag", OutVal.str "flag-one"),
         ("flags", OutVal.list [OutVal.str "f2", OutVal.str "f3"])]⟩⟩) ist0
        = .err (.errInternal (.goMsg "invalid flag type, should be a string"))) :=
  c3_export_flag_and_flags okEnv "deployment-bytes" "nc 127.0.0.1:31000"
    [("connection_info", OutVal.str "nc 127.0.0.1:31000"), ("flag", OutVal.str "flag-one"),
     ("flags", OutVal.list [OutVal.str "f2", OutVal.str "f3"])]
    ist0 "flag-one" ["f2", "f3"] [OutVal.other "int"] (OutVal.other "int") rfl rfl

/-! ## Claim C7 — `connection_info` requirement -/

/-- C7 (counterexample): with `connection_info` present but an invalid
`flags` entry, `Export` fails and the record's `connection_info` is not set —
the unconditional "when the entry is present, connection_info is set to its
string value" is false on the code. -/
theorem c7_counterexample :
    Stack.Export okEnv
        (some ⟨⟨some [("connection_info", OutVal.str "ci"),
                      ("flags", OutVal.list [OutVal.other "int"])]⟩⟩) ist0
      = .err (.errInternal (.goMsg "invalid flag type, should be a string")) ∧
    List.lookup "connection_info"
        [("connection_info", OutVal.str "ci"), ("flags", OutVal.list [OutVal.other "int"])]
      = some (OutVal.str "ci") :=
  ⟨rfl, rfl⟩

/-- C7 (amended): `Export` fails whenever the stack outputs contain no
`connection_info` entry; and whenever `Export` succeeds with the entry
present as a string, the record's `connection_info` is exactly that
string. -/
theorem c7_export_connection_info :
    (∀ (env : PulumiEnv) (r : Result) (outputs : List (String × OutVal)) (ist : Instance),
      r.sub.Outputs = some outputs → List.lookup "connection_info" outputs = none →
      ∃ e, Stack.Export env (some r) ist = .err e) ∧
    (∀ (env : PulumiEnv) (r : Result) (outputs : List (String × OutVal)) (ist out : Instance)
      (s : String),
      Stack.Export env (some r) ist = .ok out →
      r.sub.Outputs = some outputs → List.lookup "connection_info" outputs = some (.str s) →
      out.ConnectionInfo = s) := by
  constructor
  · intro env r outputs ist hro hci
    cases hex : env.exportResult with
    | error e => exact ⟨.errInternal e, by simp [Stack.Export, hex]⟩
    | ok dep =>
      exact ⟨.errInternal (.goMsg "connection_info output not found in stack outputs"),
        by simp [Stack.Export, hex, hro, hci]⟩
  · intro env r outputs ist out s h hro hci
    cases hex : env.exportResult with
    | error e => simp [Stack.Export, hex] at h
    | ok dep =>
      simp only [Stack.Export, hex, hro, hci] at h
      unfold exportFlags exportAssign at h
      repeat' split at h
      all_goals first | (cases h; simp_all) | simp_all

/-- Witness for the amended C7 theorem: an output map without
`connection_info` makes `Export` fail. -/
theorem c7_export_connection_info_witness :
    ∃ e, Stack.Export okEnv (some ⟨⟨some [("x", OutVal.str "y")]⟩⟩) ist0 = .err e :=
  c7_export_connection_info.1 okEnv ⟨⟨some [("x", OutVal.str "y")]⟩⟩
    [("x", OutVal.str "y")] ist0 rfl rfl

/-! ## Claim C9 — frame of `Export` -/

/-- C9: on success, `Export` leaves every instance field other than `State`,
`ConnectionInfo` and `Flags` unchanged. -/
theorem c9_export_frame (env : PulumiEnv) (res : Option Result) (ist out : Instance)
    (h : Stack.Export env res ist = .ok out) :
    out.Identity = ist.Identity ∧ out.ChallengeID = ist.ChallengeID ∧
    out.SourceID = ist.SourceID ∧ out.Since = ist.Since ∧
    out.LastRenew = ist.LastRenew ∧ out.Until = ist.Until ∧
    out.Additional = ist.Additional := by
  unfold Stack.Export exportFlags exportAssign at h
  repeat' split at h
  all_goals first | (cases h; simp_all) | simp_all

/-- Witness for C9 on a concrete successful export. -/
theorem c9_export_frame_witness :
    ({ ist0 with State := "deployment-bytes", ConnectionInfo := "nc 127.0.0.1:31000",
                 Flags := ([] : List String) } : Instance).Identity = ist0.Identity ∧
    ({ ist0 with State := "deployment-bytes", ConnectionInfo := "nc 127.0.0.1:31000",
                 Flags := ([] : List String) } : Instance).ChallengeID = ist0.ChallengeID ∧
    ({ ist0 with State := "deployment-bytes", ConnectionInfo := "nc 127.0.0.1:31000",
                 Flags := ([] : List String) } : Instance).SourceID = ist0.SourceID ∧
    ({ ist0 with State := "deployment-bytes", ConnectionInfo := "nc 127.0.0.1:31000",
                 Flags := ([] : List String) } : Instance).Since = ist0.Since ∧
    ({ ist0 with State := "deployment-bytes", ConnectionInfo := "nc 127.0.0.1:31000",
                 Flags := ([] : List String) } : Instance).LastRenew = ist0.LastRenew ∧
    ({ ist0 with State := "deployment-bytes", ConnectionInfo := "nc 127.0.0.1:31000",
                 Flags := ([] : List String) } : Instance).Until = ist0.Until ∧
    ({ ist0 with State := "deployment-bytes", ConnectionInfo := "nc 127.0.0.1:31000",
                 Flags := ([] : List String) } : Instance).Additional = ist0.Additional :=
  c9_export_frame okEnv
    (some ⟨⟨some [("connection_info", OutVal.str "nc 127.0.0.1:31000")]⟩⟩) ist0
    { ist0 with State := "deployment-bytes", ConnectionInfo := "nc 127.0.0.1:31000",
                Flags := ([] : List String) }
    rfl

/-! ## Helper lemmas for the path model (claim C10) -/

/-- Splitting never yields the empty list of components. -/
theorem splitSlash_ne_nil (s : List Char) : splitSlash s ≠ [] := by
  cases s with
  | nil => simp [splitSlash]
  | cons c rest =>
    simp only [splitSlash]
    cases h : splitSlash rest with
    | nil => simp
    | cons comp comps => by_cases hc : c = '/' <;> simp [hc]

/-- Components produced by splitting contain no separator. -/
theorem no_slash_of_mem_splitSlash (s : List Char) (c : List Char)
    (h : c ∈ splitSlash s) : '/' ∉ c := by
  induction s generalizing c with
  | nil =>
    simp [splitSlash] at h
    simp [h]
  | cons a rest ih =>
    simp only [splitSlash] at h
    rcases hs : splitSlash rest with _ | ⟨comp, comps⟩
    · exact absurd hs (splitSlash_ne_nil rest)
    · rw [hs] at h
      by_cases ha : a = '/'
      · simp only [ha, if_pos rfl] at h
        rcases List.mem_cons.mp h with h1 | h1
        · simp [h1]
        · exact ih c (by rw [hs]; exact h1)
      · simp only [if_neg ha] at h
        rcases List.mem_cons.mp h with h1 | h1
        · subst h1
          intro hm
          rcases List.mem_cons.mp hm with hm | hm
          · exact ha hm.symm
          · exact ih comp (by rw [hs]; exact List.mem_cons_self _ _) hm
        · exact ih c (by rw [hs]; exact List.mem_cons_of_mem _ h1)

/-- Splitting a separator-free string yields that single component. -/
theorem splitSlash_no_slash (t : List Char) (h : '/' ∉ t) : splitSlash t = [t] := by
  induction t with
  | nil => rfl
  | cons a rest ih =>
    have ha : ¬a = '/' := fun hc => h (hc ▸ List.mem_cons_self _ _)
    have hr : '/' ∉ rest := fun hc => h (List.mem_cons_of_mem _ hc)
    simp only [splitSlash, ih hr]
    simp [ha]

/-- Splitting after a separator-free prefix and a separator. -/
theorem splitSlash_append_slash (t r : List Char) (h : '/' ∉ t) :
    splitSlash (t ++ '/' :: r) = t :: splitSlash r := by
  induction t with
  | nil =>
    simp only [List.nil_append, splitSlash]
    cases hs : splitSlash r with
    | nil => exact absurd hs (splitSlash_ne_nil r)
    | cons comp comps => simp
  | cons a rest ih =>
    have ha : ¬a = '/' := fun hc => h (hc ▸ List.mem_cons_self _ _)
    have hr : '/' ∉ rest := fun hc => h (List.mem_cons_of_mem _ hc)
    rw [List.cons_append]
    conv => lhs; rw [splitSlash]
    rw [ih hr]
    simp [ha]

/-- `joinSep` over a cons cell with a non-empty tail. -/
theorem joinSep_cons (c : List Char) (l : List (List Char)) (h : l ≠ []) :
    joinSep (c :: l) = c ++ '/' :: joinSep l := by
  cases l with
  | nil => exact absurd rfl h
  | cons c' rest => rfl

/-- `joinSep` never yields the empty string on good, non-empty components. -/
theorem joinSep_ne_nil (l : List (List Char)) (h1 : GoodComps l) (h2 : l ≠ []) :
    joinSep l ≠ [] := by
  cases l with
  | nil => exact absurd rfl h2
  | cons c rest =>
    have hc : c ≠ [] := (h1 c (List.mem_cons_self _ _)).1
    cases rest with
    | nil =>
      simp only [joinSep]
      exact hc
    | cons c' rest' =>
      rw [joinSep_cons c _ (by simp)]
      cases c with
      | nil => exact absurd rfl hc
      | cons a as => simp

/-- Splitting inverts joining on good, non-empty component lists. -/
theorem splitSlash_joinSep (l : List (List Char)) (h1 : GoodComps l) (h2 : l ≠ []) :
    splitSlash (joinSep l) = l := by
  induction l with
  | nil => exact absurd rfl h2
  | cons c rest ih =>
    have hc : '/' ∉ c := (h1 c (List.mem_cons_self _ _)).2.2.2
    cases rest with
    | nil => simp [joinSep, splitSlash_no_slash c hc]
    | cons c' rest' =>
      have h1' : GoodComps (c' :: rest') := fun x hx => h1 x (List.mem_cons_of_mem _ hx)
      rw [joinSep_cons c _ (by simp), splitSlash_append_slash _ _ hc, ih h1' (by simp)]

/-- Splitting a joined list followed by a separator and a remainder. -/
theorem splitSlash_joinSep_append (l : List (List Char)) (r : List Char)
    (h1 : GoodComps l) (h2 : l ≠ []) :
    splitSlash (joinSep l ++ '/' :: r) = l ++ splitSlash r := by
  induction l with
  | nil => exact absurd rfl h2
  | cons c rest ih =>
    have hc : '/' ∉ c := (h1 c (List.mem_cons_self _ _)).2.2.2
    cases rest with
    | nil => simp [joinSep, splitSlash_append_slash c r hc]
    | cons c' rest' =>
      have h1' : GoodComps (c' :: rest') := fun x hx => h1 x (List.mem_cons_of_mem _ hx)
      rw [joinSep_cons c _ (by simp), List.append_assoc, List.cons_append,
        splitSlash_append_slash _ _ hc, ih h1' (by simp)]
      simp

/-- Processing a good component just appends it. -/
theorem cleanStep_good (abs : Bool) (acc : List (List Char)) (c : List Char)
    (h : GoodComp c) : cleanStep abs acc c = acc ++ [c] := by
  obtain ⟨h1, h2, h3, _⟩ := h
  simp [cleanStep, h1, h2, h3]

/-- Folding the cleaning step over good components just appends them. -/
theorem foldl_cleanStep_good (abs : Bool) (l : List (List Char)) (h : GoodComps l) :
    ∀ acc, List.foldl (cleanStep abs) acc l = acc ++ l := by
  induction l with
  | nil => simp
  | cons c rest ih =>
    intro acc
    have hc : GoodComp c := h c (List.mem_cons_self _ _)
    have hr : GoodComps rest := fun x hx => h x (List.mem_cons_of_mem _ hx)
    rw [List.foldl_cons, cleanStep_good abs acc c hc, ih hr]
    simp

/-- Cleaning a good prefix followed by arbitrary components folds the tail
from the prefix. -/
theorem cleanComps_good_append (abs : Bool) (ts ns : List (List Char))
    (h : GoodComps ts) :
    cleanComps abs (ts ++ ns) = List.foldl (cleanStep abs) ts ns := by
  unfold cleanComps
  rw [List.foldl_append, foldl_cleanStep_good abs ts h []]
  simp

/-- A leading empty component is dropped by cleaning. -/
theorem cleanComps_cons_nil (abs : Bool) (l : List (List Char)) :
    cleanComps abs ([] :: l) = cleanComps abs l := by
  unfold cleanComps
  simp [cleanStep]

/-- The cleaning fold preserves goodness of the accumulator when the input
components are separator-free. -/
theorem goodComps_foldl_cleanStep (l : List (List Char))
    (hl : ∀ c ∈ l, '/' ∉ c) :
    ∀ acc, GoodComps acc → GoodComps (List.foldl (cleanStep true) acc l) := by
  induction l with
  | nil => exact fun acc h => h
  | cons c rest ih =>
    intro acc hacc
    have hc : '/' ∉ c := hl c (List.mem_cons_self _ _)
    have hr : ∀ x ∈ rest, '/' ∉ x := fun x hx => hl x (List.mem_cons_of_mem _ hx)
    rw [List.foldl_cons]
    refine ih hr _ ?_
    by_cases h1 : c = [] ∨ c = ['.']
    · simpa [cleanStep, h1] using hacc
    · by_cases h2 : c = ['.', '.']
      · simp only [cleanStep, if_neg h1, if_pos h2]
        cases hlast : acc.getLast? with
        | none =>
          simp only [if_pos rfl]
          exact fun x hx => absurd hx (List.not_mem_nil x)
        | some last =>
          have hmem : last ∈ acc := by
            obtain ⟨hne, heq⟩ := List.mem_getLast?_eq_getLast (Option.mem_def.mpr hlast)
            exact heq ▸ List.getLast_mem hne
          have : ¬last = ['.', '.'] := (hacc last hmem).2.2.1
          simp only [this, if_neg]
          intro x hx
          exact hacc x (List.dropLast_subset _ hx)
      · simp only [cleanStep, if_neg h1, if_neg h2]
        intro x hx
        rcases List.mem_append.mp hx with hx | hx
        · exact hacc x hx
        · rcases List.mem_singleton.mp hx with rfl
          push_neg at h1
          exact ⟨h1.1, h1.2, h2, hc⟩

/-- Cleaning separator-free components yields good components. -/
theorem goodComps_cleanComps (l : List (List Char)) (hl : ∀ c ∈ l, '/' ∉ c) :
    GoodComps (cleanComps true l) :=
  goodComps_foldl_cleanStep l hl [] (fun c hc => absurd hc (List.not_mem_nil c))

/-- Splitting after a leading separator. -/
theorem splitSlash_cons_slash (r : List Char) : splitSlash ('/' :: r) = [] :: splitSlash r := by
  simp only [splitSlash]
  cases hs : splitSlash r with
  | nil => exact absurd hs (splitSlash_ne_nil r)
  | cons comp comps => simp

/-- Cleaning a good component list is the identity. -/
theorem cleanComps_good (ts : List (List Char)) (h : GoodComps ts) :
    cleanComps true ts = ts := by
  unfold cleanComps
  rw [foldl_cleanStep_good true ts h []]
  simp

/-- A rendered good path is already clean. -/
theorem goClean_renderAbs (ts : List (List Char)) (h1 : GoodComps ts) (h2 : ts ≠ []) :
    goClean (renderAbs ts) = renderAbs ts := by
  unfold goClean renderAbs
  simp only [List.head?_cons, beq_self_eq_true, if_true]
  rw [splitSlash_cons_slash, cleanComps_cons_nil, splitSlash_joinSep ts h1 h2,
    cleanComps_good ts h1]

/-- The components a good component list resolves to with no entry name. -/
theorem resolveComps_nil_name (ts : List (List Char)) (h1 : GoodComps ts) :
    resolveComps ts [] = ts := by
  unfold resolveComps
  rw [show splitSlash ([] : List Char) = [[]] from rfl,
    cleanComps_good_append true ts [[]] h1]
  simp [cleanStep]

/-- Joining an entry name onto a rendered good directory renders the cleaned
resolution of the name against the directory's components. -/
theorem goJoin_renderAbs (ts : List (List Char)) (name : List Char)
    (h1 : GoodComps ts) (h2 : ts ≠ []) :
    goJoin (renderAbs ts) name = renderAbs (resolveComps ts name) := by
  have hra : renderAbs ts ≠ [] := by simp [renderAbs]
  by_cases hname : name = []
  · subst hname
    unfold goJoin
    rw [if_neg hra, if_pos rfl, goClean_renderAbs ts h1 h2, resolveComps_nil_name ts h1]
  · unfold goJoin
    rw [if_neg hra, if_neg hname]
    have hp : renderAbs ts ++ '/' :: name = '/' :: (joinSep ts ++ '/' :: name) := by
      simp [renderAbs]
    rw [hp]
    unfold goClean
    simp only [List.head?_cons, beq_self_eq_true, if_true]
    rw [splitSlash_cons_slash, cleanComps_cons_nil, splitSlash_joinSep_append ts name h1 h2]
    rfl

/-- A separated prefix relation between slash-free heads forces the heads to
agree. -/
theorem prefix_slashfree_sep : ∀ (t c r1 r2 : List Char), '/' ∉ t → '/' ∉ c →
    (t ++ '/' :: r1) <+: (c ++ '/' :: r2) → t = c ∧ r1 <+: r2 := by
  intro t
  induction t with
  | nil =>
    intro c r1 r2 _ hc h
    rw [List.nil_append] at h
    cases c with
    | nil =>
      rw [List.nil_append] at h
      exact ⟨rfl, (List.cons_prefix_cons.mp h).2⟩
    | cons b c' =>
      rw [List.cons_append] at h
      have hb := (List.cons_prefix_cons.mp h).1
      exact absurd (List.mem_cons.mpr (Or.inl hb)) hc
  | cons a t' ih =>
    intro c r1 r2 ht hc h
    cases c with
    | nil =>
      rw [List.nil_append, List.cons_append] at h
      have hb := (List.cons_prefix_cons.mp h).1
      exact absurd (List.mem_cons.mpr (Or.inl hb.symm)) ht
    | cons b c' =>
      rw [List.cons_append, List.cons_append] at h
      obtain ⟨hab, h'⟩ := List.cons_prefix_cons.mp h
      have ht' : '/' ∉ t' := fun hm => ht (List.mem_cons_of_mem _ hm)
      have hc' : '/' ∉ c' := fun hm => hc (List.mem_cons_of_mem _ hm)
      obtain ⟨h1, h2⟩ := ih c' r1 r2 ht' hc' h'
      exact ⟨by rw [hab, h1], h2⟩

/-- A rendered-and-separated prefix between good component lists is a strict
component-list extension. -/
theorem joinSep_sep_prefix : ∀ (ts cs : List (List Char)), GoodComps ts → GoodComps cs →
    (joinSep ts ++ ['/']) <+: joinSep cs → ts <+: cs ∧ ts ≠ cs := by
  intro ts
  induction ts with
  | nil =>
    intro cs _ hcs h
    refine ⟨List.nil_prefix, ?_⟩
    intro heq
    rw [← heq] at h
    simp only [joinSep, List.nil_append] at h
    have := List.prefix_nil.mp h
    simp at this
  | cons t ts' ih =>
    intro cs hts hcs h
    have ht : GoodComp t := hts t (List.mem_cons_self _ _)
    have hts' : GoodComps ts' := fun x hx => hts x (List.mem_cons_of_mem _ hx)
    cases cs with
    | nil =>
      simp only [joinSep] at h
      have := List.prefix_nil.mp h
      simp at this
    | cons c cs' =>
      have hc : GoodComp c := hcs c (List.mem_cons_self _ _)
      have hcs' : GoodComps cs' := fun x hx => hcs x (List.mem_cons_of_mem _ hx)
      cases ts' with
      | nil =>
        cases cs' with
        | nil =>
          simp only [joinSep] at h
          obtain ⟨u, hu⟩ := h
          exact absurd (by rw [← hu]; simp : '/' ∈ c) hc.2.2.2
        | cons c2 cs'' =>
          rw [joinSep_cons c _ (by simp)] at h
          simp only [joinSep] at h
          have h' : (t ++ '/' :: ([] : List Char)) <+: (c ++ '/' :: joinSep (c2 :: cs'')) := by
            simpa using h
          obtain ⟨htc, _⟩ := prefix_slashfree_sep t c [] _ ht.2.2.2 hc.2.2.2 h'
          subst htc
          exact ⟨List.cons_prefix_cons.mpr ⟨rfl, List.nil_prefix⟩, by simp⟩
      | cons t2 ts'' =>
        rw [joinSep_cons t _ (by simp), List.append_assoc, List.cons_append] at h
        cases cs' with
        | nil =>
          simp only [joinSep] at h
          obtain ⟨u, hu⟩ := h
          exact absurd (by rw [← hu]; simp : '/' ∈ c) hc.2.2.2
        | cons c2 cs'' =>
          rw [joinSep_cons c _ (by simp)] at h
          obtain ⟨htc, h'⟩ := prefix_slashfree_sep t c _ _ ht.2.2.2 hc.2.2.2 h
          obtain ⟨hpre, hne⟩ := ih (c2 :: cs'') hts' hcs' h'
          subst htc
          refine ⟨List.cons_prefix_cons.mpr ⟨rfl, hpre⟩, ?_⟩
          intro hh
          injection hh with _ h2
          exact hne h2

/-- The resolution of any entry name against a good directory is good. -/
theorem goodComps_resolveComps (ts : List (List Char)) (name : List Char)
    (h1 : GoodComps ts) : GoodComps (resolveComps ts name) := by
  apply goodComps_cleanComps
  intro c hc
  rcases List.mem_append.mp hc with h | h
  · exact (h1 c h).2.2.2
  · exact no_slash_of_mem_splitSlash name c h

/-- When the extraction loop's string check passes, the entry's resolution is
a strict component extension of the extraction directory. -/
theorem check_imp_inside (ts : List (List Char)) (name : List Char)
    (h1 : GoodComps ts) (h2 : ts ≠ [])
    (h : (goClean (renderAbs ts) ++ ['/']).isPrefixOf (goJoin (renderAbs ts) name) = true) :
    ts <+: resolveComps ts name ∧ ts ≠ resolveComps ts name := by
  rw [goClean_renderAbs ts h1 h2, goJoin_renderAbs ts name h1 h2] at h
  have hpre : (renderAbs ts ++ ['/']) <+: renderAbs (resolveComps ts name) :=
    List.isPrefixOf_iff_prefix.mp h
  unfold renderAbs at hpre
  rw [List.cons_append] at hpre
  exact joinSep_sep_prefix ts (resolveComps ts name) h1
    (goodComps_resolveComps ts name h1) (List.cons_prefix_cons.mp hpre).2

/-- `dropWhile (· != '/')` skips a separator-free prefix. -/
theorem dropWhile_bne_append (l m : List Char) (h : '/' ∉ l) :
    List.dropWhile (· != '/') (l ++ m) = List.dropWhile (· != '/') m := by
  induction l with
  | nil => rfl
  | cons a rest ih =>
    have ha : ¬a = '/' := fun hc => h (hc ▸ List.mem_cons_self _ _)
    have hr : '/' ∉ rest := fun hc => h (List.mem_cons_of_mem _ hc)
    rw [List.cons_append, List.dropWhile_cons]
    simp only [bne_iff_ne, ne_eq, ha, not_false_eq_true, if_true]
    exact ih hr

/-- `joinSep` over a concatenation ending in one component. -/
theorem joinSep_concat (init : List (List Char)) (l : List Char) (h : init ≠ []) :
    joinSep (init ++ [l]) = joinSep init ++ '/' :: l := by
  induction init with
  | nil => exact absurd rfl h
  | cons x rest ih =>
    cases rest with
    | nil => simp [joinSep]
    | cons y rest' =>
      rw [List.cons_append, joinSep_cons x _ (by simp), joinSep_cons x _ (by simp),
        ih (by simp)]
      simp

/-- `filepath.Dir` of a rendered good path drops its last component. -/
theorem goDir_renderAbs (cs : List (List Char)) (h1 : GoodComps cs) (h2 : cs ≠ []) :
    goDir (renderAbs cs) = renderAbs cs.dropLast := by
  rcases List.eq_nil_or_concat cs with rfl | ⟨init, last, rfl⟩
  · exact absurd rfl h2
  simp only [List.concat_eq_append] at h1 h2 ⊢
  have hlast : '/' ∉ last :=
    (h1 last (List.mem_append.mpr (Or.inr (List.mem_singleton.mpr rfl)))).2.2.2
  have hlastrev : '/' ∉ last.reverse := fun hc => hlast (List.mem_reverse.mp hc)
  cases init with
  | nil =>
    have hp : renderAbs ([] ++ [last]) = '/' :: last := by simp [renderAbs, joinSep]
    rw [hp]
    unfold goDir
    rw [List.reverse_cons, dropWhile_bne_append last.reverse ['/'] hlastrev]
    simp [renderAbs, joinSep]
    rfl
  | cons i is =>
    have hinit : GoodComps (i :: is) := fun x hx =>
      h1 x (List.mem_append.mpr (Or.inl hx))
    have hp : renderAbs ((i :: is) ++ [last])
        = ('/' :: joinSep (i :: is)) ++ '/' :: last := by
      rw [renderAbs, joinSep_concat (i :: is) last (by simp)]
      simp
    rw [hp]
    unfold goDir
    rw [List.reverse_append, List.reverse_cons, List.reverse_cons, List.append_assoc,
      dropWhile_bne_append last.reverse _ hlastrev]
    have hdw : List.dropWhile (· != '/') ('/' :: ((joinSep (i :: is)).reverse ++ ['/']))
        = '/' :: ((joinSep (i :: is)).reverse ++ ['/']) := by
      rw [List.dropWhile_cons]
      simp
    rw [List.singleton_append, hdw, List.reverse_cons, List.reverse_append,
      List.reverse_reverse]
    have hsh : (['/'].reverse ++ joinSep (i :: is)) ++ ['/']
        = '/' :: (joinSep (i :: is) ++ '/' :: []) := by simp
    rw [hsh]
    unfold goClean
    simp only [List.head?_cons, beq_self_eq_true, if_true]
    rw [splitSlash_cons_slash, cleanComps_cons_nil,
      splitSlash_joinSep_append (i :: is) [] hinit (by simp),
      cleanComps_good_append true (i :: is) _ hinit]
    have : List.foldl (cleanStep true) (i :: is) (splitSlash []) = i :: is := by
      simp [splitSlash, cleanStep]
    rw [this, List.dropLast_concat]

/-- Soundness of the extraction loop: starting from a state whose files are
strictly inside the extraction directory (and whose directories are it or
inside it), every file the loop writes stays strictly inside, every directory
it creates is the extraction directory or strictly inside it, and an entry
resolving outside makes the loop return an `InvalidArgument` status. -/
theorem extractZip_sound (ts : List (List Char)) (h1 : GoodComps ts) (h2 : ts ≠ []) :
    ∀ (entries : List ZipEntry) (st : ExtractState),
      (∀ p c, (p, c) ∈ st.files → insideStrict ts p) →
      (∀ p ∈ st.dirs, p = renderAbs ts ∨ insideStrict ts p) →
      (∀ p c, (p, c) ∈ (extractZip (renderAbs ts) entries st).1.files → insideStrict ts p) ∧
      (∀ p ∈ (extractZip (renderAbs ts) entries st).1.dirs,
        p = renderAbs ts ∨ insideStrict ts p) ∧
      ((∃ e ∈ entries, resolvesOutside ts e.name) →
        ∃ m, (extractZip (renderAbs ts) entries st).2
          = some { code := .invalidArgument, msg := m }) := by
  intro entries
  induction entries with
  | nil =>
    intro st hf hd
    refine ⟨hf, hd, ?_⟩
    rintro ⟨e, he, _⟩
    exact absurd he (List.not_mem_nil e)
  | cons e rest ih =>
    intro st hf hd
    by_cases hchk : (goClean (renderAbs ts) ++ ['/']).isPrefixOf (goJoin (renderAbs ts) e.name)
        = true
    · obtain ⟨hpre, hne⟩ := check_imp_inside ts e.name h1 h2 hchk
      have hpath : goJoin (renderAbs ts) e.name = renderAbs (resolveComps ts e.name) :=
        goJoin_renderAbs ts e.name h1 h2
      have hrgood := goodComps_resolveComps ts e.name h1
      have hinside : insideStrict ts (goJoin (renderAbs ts) e.name) :=
        ⟨resolveComps ts e.name, hrgood, hpre, hne, hpath⟩
      have hnotout : ¬ resolvesOutside ts e.name := fun hout => hout ⟨hpre, hne⟩
      by_cases hdir : e.isDir = true
      · have hstep : extractZip (renderAbs ts) (e :: rest) st
            = extractZip (renderAbs ts) rest
                { st with dirs := st.dirs ++ [goJoin (renderAbs ts) e.name] } := by
          simp [extractZip, hchk, hdir]
        rw [hstep]
        have hd' : ∀ p ∈ st.dirs ++ [goJoin (renderAbs ts) e.name],
            p = renderAbs ts ∨ insideStrict ts p := by
          intro p hp
          rcases List.mem_append.mp hp with hp | hp
          · exact hd p hp
          · rcases List.mem_singleton.mp hp with rfl
            exact Or.inr hinside
        obtain ⟨f1, f2, f3⟩ := ih { st with dirs := st.dirs ++ [goJoin (renderAbs ts) e.name] }
          hf hd'
        refine ⟨f1, f2, ?_⟩
        rintro ⟨e', he', hout⟩
        rcases List.mem_cons.mp he' with rfl | he'
        · exact absurd hout hnotout
        · exact f3 ⟨e', he', hout⟩
      · have hstep : extractZip (renderAbs ts) (e :: rest) st
            = extractZip (renderAbs ts) rest
                { st with dirs := st.dirs ++ [goDir (goJoin (renderAbs ts) e.name)],
                          files := st.files ++ [(goJoin (renderAbs ts) e.name, e.content)] } := by
          simp [extractZip, hchk, hdir]
        rw [hstep]
        obtain ⟨u, hu⟩ := hpre
        have hu_ne : u ≠ [] := by
          intro hun
          rw [hun, List.append_nil] at hu
          exact hne hu
        have hrcs_ne : resolveComps ts e.name ≠ [] := by
          intro hc
          rw [hc] at hu
          rcases List.append_eq_nil.mp hu with ⟨hts, _⟩
          exact h2 hts
        have hgdir : goDir (goJoin (renderAbs ts) e.name)
            = renderAbs (resolveComps ts e.name).dropLast := by
          rw [hpath, goDir_renderAbs _ hrgood hrcs_ne]
        have hd' : ∀ p ∈ st.dirs ++ [goDir (goJoin (renderAbs ts) e.name)],
            p = renderAbs ts ∨ insideStrict ts p := by
          intro p hp
          rcases List.mem_append.mp hp with hp | hp
          · exact hd p hp
          · rcases List.mem_singleton.mp hp with rfl
            rw [hgdir, ← hu, List.dropLast_append_of_ne_nil ts hu_ne]
            by_cases hdu : u.dropLast = []
            · left
              rw [hdu, List.append_nil]
            · right
              refine ⟨ts ++ u.dropLast, ?_, ⟨u.dropLast, rfl⟩, ?_, rfl⟩
              · intro x hx
                apply hrgood x
                rw [← hu]
                rcases List.mem_append.mp hx with hx | hx
                · exact List.mem_append.mpr (Or.inl hx)
                · exact List.mem_append.mpr (Or.inr (List.dropLast_subset u hx))
              · intro hts
                exact hdu (List.append_right_eq_self.mp hts.symm)
        have hf' : ∀ p c, (p, c) ∈ st.files ++ [(goJoin (renderAbs ts) e.name, e.content)] →
            insideStrict ts p := by
          intro p c hp
          rcases List.mem_append.mp hp with hp | hp
          · exact hf p c hp
          · rcases List.mem_singleton.mp hp with hp
            rw [Prod.mk.injEq] at hp
            rw [hp.1]
            exact hinside
        obtain ⟨f1, f2, f3⟩ := ih
          { st with dirs := st.dirs ++ [goDir (goJoin (renderAbs ts) e.name)],
                    files := st.files ++ [(goJoin (renderAbs ts) e.name, e.content)] }
          hf' hd'
        refine ⟨f1, f2, ?_⟩
        rintro ⟨e', he', hout⟩
        rcases List.mem_cons.mp he' with rfl | he'
        · exact absurd hout hnotout
        · exact f3 ⟨e', he', hout⟩
    · have hstep : extractZip (renderAbs ts) (e :: rest) st
          = (st, some { code := .invalidArgument,
                        msg := "invalid file path in ZIP: ".data ++ e.name }) := by
        simp [extractZip, hchk]
      rw [hstep]
      exact ⟨hf, hd, fun _ => ⟨_, rfl⟩⟩

/-! ## Claim C10 — ZIP path-traversal guard -/

/-- C10: during `PushScenario`'s extraction, any ZIP entry whose joined path
resolves outside the temporary extraction directory makes the call fail with
`InvalidArgument`, that entry's path is never written, and every file (and
created directory) stays inside the extraction directory. -/
theorem c10_zip_traversal_guard (ts : List (List Char)) (entries : List ZipEntry)
    (h1 : GoodComps ts) (h2 : ts ≠ []) :
    (∀ p c, (p, c) ∈ (extractZip (renderAbs ts) entries ⟨[], []⟩).1.files →
      insideStrict ts p) ∧
    (∀ p ∈ (extractZip (renderAbs ts) entries ⟨[], []⟩).1.dirs,
      p = renderAbs ts ∨ insideStrict ts p) ∧
    ((∃ e ∈ entries, resolvesOutside ts e.name) →
      ∃ m, (extractZip (renderAbs ts) entries ⟨[], []⟩).2
        = some { code := .invalidArgument, msg := m }) ∧
    (∀ e ∈ entries, resolvesOutside ts e.name →
      ∀ c, (goJoin (renderAbs ts) e.name, c)
        ∉ (extractZip (renderAbs ts) entries ⟨[], []⟩).1.files) := by
  obtain ⟨f1, f2, f3⟩ := extractZip_sound ts h1 h2 entries ⟨[], []⟩
    (fun p c h => absurd h (List.not_mem_nil _))
    (fun p h => absurd h (List.not_mem_nil _))
  refine ⟨f1, f2, f3, ?_⟩
  intro e _ hout c hmem
  obtain ⟨cs, hcs_good, hcs_pre, hcs_ne, hcs_eq⟩ := f1 _ _ hmem
  rw [goJoin_renderAbs ts e.name h1 h2] at hcs_eq
  have hrgood := goodComps_resolveComps ts e.name h1
  have hcs_ne_nil : cs ≠ [] := by
    intro hc
    subst hc
    exact h2 (List.prefix_nil.mp hcs_pre)
  have hjoin_eq : joinSep (resolveComps ts e.name) = joinSep cs := by
    have h' := hcs_eq
    unfold renderAbs at h'
    injection h'
  have hrcs_ne_nil : resolveComps ts e.name ≠ [] := by
    intro hc
    rw [hc] at hjoin_eq
    exact joinSep_ne_nil cs hcs_good hcs_ne_nil hjoin_eq.symm
  have hsame : resolveComps ts e.name = cs := by
    have e1 := splitSlash_joinSep _ hrgood hrcs_ne_nil
    have e2 := splitSlash_joinSep _ hcs_good hcs_ne_nil
    rw [← e1, ← e2, hjoin_eq]
  rw [← hsame] at hcs_pre hcs_ne
  exact hout ⟨hcs_pre, hcs_ne⟩

/-- Witness for C10 on a concrete archive with a traversal entry. -/
theorem c10_zip_traversal_guard_witness :
    (∀ p c, (p, c) ∈ (extractZip (renderAbs tmpComps) zipEntries ⟨[], []⟩).1.files →
      insideStrict tmpComps p) ∧
    (∀ p ∈ (extractZip (renderAbs tmpComps) zipEntries ⟨[], []⟩).1.dirs,
      p = renderAbs tmpComps ∨ insideStrict tmpComps p) ∧
    ((∃ e ∈ zipEntries, resolvesOutside tmpComps e.name) →
      ∃ m, (extractZip (renderAbs tmpComps) zipEntries ⟨[], []⟩).2
        = some { code := .invalidArgument, msg := m }) ∧
    (∀ e ∈ zipEntries, resolvesOutside tmpComps e.name →
      ∀ c, (goJoin (renderAbs tmpComps) e.name, c)
        ∉ (extractZip (renderAbs tmpComps) zipEntries ⟨[], []⟩).1.files) :=
  c10_zip_traversal_guard tmpComps zipEntries (by decide) (by decide)

end ChallManager
